import Mathlib

/-!
Verification of the ezytube-downloader repository: a shallow embedding of the
data model and of the operations of `src/core/downloader.py`,
`src/core/history_repository.py`, `src/core/file_utils.py` and
`src/models/app_settings.py`, with theorems settling the specified claims.

Conventions of the embedding:
  - Python `str` is Lean `String`; Python `int` is `Nat` where the source only
    ever holds byte counts, heights or timestamps; Python `None`-able values
    are `Option`.
  - Wall-clock inputs (`datetime.now().isoformat()`, `os.path.getmtime`) and
    filesystem contents are explicit parameters.
  - The yt-dlp library, the ffmpeg binary and the json module are the external
    collaborators of the spec: their observable behaviour (the info dict, the
    progress events, the persisted dict) is an explicit input of each modelled
    operation.
-/

/-! ## Data model (`src/models/`) -/

/-- DownloadEntry of `src/models/download_entry.py`: title, url, file_path,
ISO download_date and optional file_size. -/
structure DownloadEntry where
  title : String
  url : String
  file_path : String
  download_date : String
  file_size : Option Nat := none
deriving DecidableEq

/-- DownloadResult of `src/models/download_result.py`. -/
structure DownloadResult where
  success : Bool
  file_path : Option String := none
  title : Option String := none
  error_message : Option String := none
deriving DecidableEq

/-- DownloadProgress of `src/models/download_progress.py`; the float
percentage is embedded as a rational. -/
structure DownloadProgress where
  status : String
  percentage : ℚ
  downloaded_bytes : Nat
  total_bytes : Nat
  speed : Option String := none
  eta : Option String := none
deriving DecidableEq

/-- VideoFormat of `src/models/video_format.py`. -/
structure VideoFormat where
  format_id : String
  resolution : String
  ext : String
  filesize : Option Nat := none
  has_audio : Bool := true
  has_video : Bool := true
  description : String := ""
deriving DecidableEq

/-- AppSettings of `src/models/app_settings.py`. -/
structure AppSettings where
  download_dir : String := ""
  last_url : String := ""
deriving DecidableEq

/-! ## History store (`src/core/history_repository.py`)

`DownloadHistory._entries` is embedded as the plain list it holds; `_save`
swallows I/O errors and never changes the in-memory list, so the persisted
copy does not appear in the state. `datetime.now().isoformat()` is the
`download_date` argument. -/

/-- One `add_entry(title, url, file_path, file_size)` call of
`DownloadHistory.add_entry` (lines 71-84): drop entries with the same
file_path, insert the new entry at index 0, truncate to 100. -/
def add_entry (entries : List DownloadEntry) (title url file_path : String)
    (download_date : String) (file_size : Option Nat) : List DownloadEntry :=
  let remaining := entries.filter (fun e => e.file_path != file_path)
  ({ title := title, url := url, file_path := file_path,
     download_date := download_date, file_size := file_size } :: remaining).take 100

/-- Arguments of one `add_entry` call (the clock value included). -/
structure AddCall where
  title : String
  url : String
  file_path : String
  download_date : String
  file_size : Option Nat := none
deriving DecidableEq

/-- A finite sequence of `add_entry` calls applied in order. -/
def apply_add_entries (entries : List DownloadEntry) (calls : List AddCall) :
    List DownloadEntry :=
  calls.foldl
    (fun es c => add_entry es c.title c.url c.file_path c.download_date c.file_size)
    entries

/-- Methods the class `DownloadHistory` defines (lines 30-105 of
`src/core/history_repository.py`). -/
def download_history_methods : List String :=
  ["__init__", "_load", "_remove_duplicates", "_save", "add_entry",
   "get_entries", "get_last_file_path", "remove_entry", "clear"]

/-- Method name `HistoryPanel.refresh` invokes on its `DownloadHistory`
(line 162 of `src/ui/history_panel.py`). -/
def history_panel_refresh_target : String := "validate_entries"

/-! ## Object-identity model for `get_entries`

`DownloadHistory.get_entries` (lines 86-88) returns `self._entries.copy()`.
To state what the copy buys, list objects live in a small heap: a heap is the
list of allocated list objects, a reference is an index into it. `get_entries`
allocates a fresh object holding the same elements as the store's object and
returns a reference to it. -/

/-- Heap of allocated `list[DownloadEntry]` objects. -/
abbrev EntriesHeap := List (List DownloadEntry)

/-- Contents of the object behind reference `r`. -/
def heap_read (h : EntriesHeap) (r : Nat) : List DownloadEntry := h.getD r []

/-- In-place mutation of the object behind reference `r`. -/
def heap_write (h : EntriesHeap) (r : Nat) (v : List DownloadEntry) : EntriesHeap :=
  h.set r v

/-- `get_entries` on the store whose `_entries` object is `store`: allocate a
copy of the store's list (`self._entries.copy()`) and return the fresh
reference together with the grown heap. -/
def get_entries (h : EntriesHeap) (store : Nat) : Nat × EntriesHeap :=
  (h.length, h ++ [heap_read h store])

/-! ## Settings persistence (`src/models/app_settings.py`)

`save` writes `json.dump(asdict(self))`, `load` reads `json.load` and calls
`cls(**data)`; any exception in `load` yields `cls()`. The json module is the
external collaborator: a settings file that was written and read successfully
is the key-value dict itself. -/

/-- dataclasses.asdict of an AppSettings value. -/
def settings_asdict (s : AppSettings) : List (String × String) :=
  [("download_dir", s.download_dir), ("last_url", s.last_url)]

/-- AppSettings(**data): succeeds when every key names a dataclass field,
filling absent fields with their defaults; on a TypeError `load` falls back to
`cls()`. -/
def settings_from_kwargs (data : List (String × String)) : AppSettings :=
  if data.all (fun kv => kv.1 == "download_dir" || kv.1 == "last_url") then
    { download_dir := (data.lookup "download_dir").getD ""
      last_url := (data.lookup "last_url").getD "" }
  else {}

/-- AppSettings.save (lines 33-39) with the I/O succeeding: the persisted
file holds the dict. -/
def settings_save (s : AppSettings) : List (String × String) :=
  settings_asdict s

/-- AppSettings.load (lines 41-52) with the I/O succeeding on file contents
`data` (`none` models a missing file). -/
def settings_load (data : Option (List (String × String))) : AppSettings :=
  match data with
  | some d => settings_from_kwargs d
  | none => {}

/-! ## Download service (`src/core/downloader.py`)

The filesystem the downloader observes: the listing of the output directory
(file name and mtime per entry, as `os.listdir` plus `os.path.getmtime`
report them) and the set of existing paths outside that directory. -/

/-- Observable filesystem state around the output directory. -/
structure FileSys where
  dir_files : List (String × Nat)
  other_paths : List String
deriving DecidableEq

/-- os.path.join of the output directory and a file name. -/
def join_path (dir name : String) : String := dir ++ "/" ++ name

/-- os.path.exists on this filesystem state. -/
def path_exists (fs : FileSys) (dir p : String) : Bool :=
  (fs.dir_files.map (fun f => join_path dir f.1)).contains p
    || fs.other_paths.contains p

/-- YouTubeDownloader._find_most_recent_file (lines 377-392): list the output
directory, keep names ending in ".mp4", and return the full path of the entry
with the greatest mtime (first such entry on ties, as the stable descending
sort leaves it); `none` when no .mp4 file exists. -/
def _find_most_recent_file (fs : FileSys) (dir : String) : Option String :=
  let mp4_files :=
    (fs.dir_files.filter (fun f => f.1.endsWith ".mp4")).map
      (fun f => (join_path dir f.1, f.2))
  match mp4_files with
  | [] => none
  | x :: xs => some (xs.foldl (fun best y => if y.2 > best.2 then y else best) x).1

/-- Fields of the first element of the info dict's `requested_downloads`
list that `download` reads. -/
structure RequestedDownload where
  filepath : Option String
deriving DecidableEq

/-- Fields of the info dict returned by `ydl.extract_info(url, download=True)`
that the tail of `download` reads. -/
structure ResolveInfo where
  title : String
  ext : String
  requested_downloads : List RequestedDownload
deriving DecidableEq

/-- Lines 268-281 of YouTubeDownloader.download, the file-path resolution on
the success path: take the library-reported `requested_downloads[0].filepath`
when the list is non-empty, else the title-derived `{title}.{ext}` path in the
output directory; if that is missing or does not exist, fall back to
`_find_most_recent_file`; return success with whatever resulted. -/
def resolve_download_result (fs : FileSys) (dir : String) (info : ResolveInfo) :
    DownloadResult :=
  let file_path0 : Option String :=
    match info.requested_downloads with
    | rd :: _ => rd.filepath
    | [] => some (join_path dir (info.title ++ "." ++ info.ext))
  let file_path : Option String :=
    match file_path0 with
    | some p => if p != "" && path_exists fs dir p then some p
                else _find_most_recent_file fs dir
    | none => _find_most_recent_file fs dir
  { success := true, file_path := file_path, title := some info.title }

/-- DownloadResult built at lines 251-254, 263-266 and 286-289: cancellation
reported with the fixed message. -/
def cancelled_result : DownloadResult :=
  { success := false, error_message := some "Download cancelado" }

/-- DownloadResult built at lines 290-293: generic failure carrying the
exception's text. -/
def error_result (e : String) : DownloadResult :=
  { success := false, error_message := some e }

/-- Behaviour of the yt-dlp library during one `download` call:
`meta_result` is the outcome of the metadata-only `extract_info` (error text
or title), `hook_count` the number of progress-hook invocations the download
phase performs when none of them raises (the last one being the `finished`
terminal event), `dl_result` the outcome of `extract_info(url, download=True)`
once all hooks ran. -/
structure LibRun where
  meta_result : Except String String
  hook_count : Nat
  dl_result : Except String ResolveInfo

/-- The cooperative cancellation flag as the progress hook and the two
explicit checks read it: `cancel()` ran at checkpoint `cancel_time`, so every
read at a checkpoint at or after it sees `True`. Checkpoint 0 is the `reset()`
at the top of `download` (which clears the flag), checkpoint 1 the
metadata-fetch boundary (line 249's check), checkpoint `2 + i` the i-th
progress-hook invocation, checkpoint `2 + hook_count` the post-download check
at line 261. -/
def cancel_seen (cancel_time pos : Nat) : Bool := cancel_time ≤ pos

/-- YouTubeDownloader.download (lines 223-293) over a library behaviour and a
cancellation time: metadata fetch, cancellation check A, the download phase
whose progress hook raises at the first invocation that sees the flag
(line 347-348, caught at line 283 where the flag is still set), cancellation
check B, then the success-path file resolution. -/
def run_download (cancel_time : Nat) (lib : LibRun) (fs : FileSys) (dir : String) :
    DownloadResult :=
  match lib.meta_result with
  | .error e => if cancel_seen cancel_time 1 then cancelled_result else error_result e
  | .ok _ =>
    if cancel_seen cancel_time 1 then cancelled_result
    else
      match (List.range lib.hook_count).find? (fun i => cancel_seen cancel_time (2 + i)) with
      | some _ => cancelled_result
      | none =>
        match lib.dl_result with
        | .error e =>
          if cancel_seen cancel_time (2 + lib.hook_count) then cancelled_result
          else error_result e
        | .ok info =>
          if cancel_seen cancel_time (2 + lib.hook_count) then cancelled_result
          else resolve_download_result fs dir info

/-! ## Format listing (`get_available_formats`, lines 150-221)

The info dict's `formats` list enters the model as the two fields the code
reads per entry: `height` and `filesize`. -/

/-- Fields of one yt-dlp format dict that `get_available_formats` reads. -/
structure RawFormat where
  height : Option Nat
  filesize : Option Nat
deriving DecidableEq

/-- Resolution allow-list of line 189. -/
def common_resolutions : List Nat := [2160, 1440, 1080, 720, 480, 360]

/-- Synthetic first entry built at lines 172-177. -/
def best_format : VideoFormat :=
  { format_id := "best", resolution := "Melhor disponivel", ext := "mp4",
    description := "Melhor qualidade de video + audio" }

/-- Synthetic last entry built at lines 207-213. -/
def audio_format : VideoFormat :=
  { format_id := "bestaudio/best", resolution := "Apenas audio", ext := "mp3",
    has_video := false, description := "MP3 audio" }

/-- Video entry built at lines 193-201 for an accepted height. -/
def video_entry (height : Nat) (filesize : Option Nat) : VideoFormat :=
  { format_id := "bestvideo[height<=" ++ toString height
      ++ "]+bestaudio/best[height<=" ++ toString height ++ "]"
    resolution := toString height ++ "p"
    ext := "mp4"
    filesize := filesize
    description := "Video " ++ toString height ++ "p" }

/-- Loop of lines 183-201 with its `seen_resolutions` set: skip falsy or
already-seen heights, skip heights outside the allow-list, otherwise record
the height as seen and append a video entry. -/
def collect_formats : List RawFormat → List Nat → List VideoFormat
  | [], _ => []
  | f :: rest, seen =>
    match f.height with
    | none => collect_formats rest seen
    | some h =>
      if h = 0 ∨ h ∈ seen then collect_formats rest seen
      else if h ∈ common_resolutions then
        video_entry h f.filesize :: collect_formats rest (h :: seen)
      else collect_formats rest seen

/-- int() on a string of decimal digits, `none` on anything else. -/
def parse_int (l : List Char) : Option Nat :=
  if l ≠ [] ∧ l.all Char.isDigit then
    some (l.foldl (fun n c => n * 10 + (c.toNat - 48)) 0)
  else none

/-- Sort key of line 204: `int(f.resolution.replace('p', ''))`; replacing the
one-character pattern "p" by "" removes every 'p'. The `getD 0` arm is never
reached on the numeric resolutions the loop produces. -/
def resolution_sort_key (f : VideoFormat) : Nat :=
  (parse_int (f.resolution.data.filter (fun c => !(c == 'p')))).getD 0

/-- Stable insertion into a list already sorted by descending key: the new
element goes before the first strictly-smaller key and after equal keys, as
Python's stable `sorted(..., reverse=True)` orders them. -/
def insert_desc (f : VideoFormat) : List VideoFormat → List VideoFormat
  | [] => [f]
  | g :: gs =>
    if resolution_sort_key f ≥ resolution_sort_key g then f :: g :: gs
    else g :: insert_desc f gs

/-- sorted(formats[1:], key=..., reverse=True) of line 204 as a stable
insertion sort. -/
def sort_desc : List VideoFormat → List VideoFormat
  | [] => []
  | f :: fs => insert_desc f (sort_desc fs)

/-- YouTubeDownloader.get_available_formats (lines 150-221) on the success
path of the metadata query: the best-available sentinel, the deduplicated
allow-listed video entries sorted by descending resolution, and the
audio-only sentinel. -/
def get_available_formats (fmts : List RawFormat) : List VideoFormat :=
  best_format :: sort_desc (collect_formats fmts []) ++ [audio_format]

/-- Single-element list returned at lines 215-219 when the metadata query
raises. -/
def fallback_formats : List VideoFormat :=
  [{ format_id := "best", resolution := "Melhor disponivel", ext := "mp4" }]

/-! ## Progress hook (`_on_progress`, lines 344-375)

`strip_ansi_codes` (lines 18-23) removes every match of the source's ANSI
regex: an ESC (0x1B) followed either by one character of the class 0x40-0x5A
or 0x5C-0x5F, or by the CSI form 0x5B, then parameter bytes 0x30-0x3F, then
intermediate bytes 0x20-0x2F, then one final byte 0x40-0x7E. The three CSI
classes are pairwise disjoint, so the greedy left-to-right scan below matches
the regex engine. -/

/-- Single-character class of the regex's first arm (0x40-0x5A, 0x5C-0x5F). -/
def esc_single (c : Char) : Bool :=
  (64 ≤ c.toNat && c.toNat ≤ 90) || (92 ≤ c.toNat && c.toNat ≤ 95)

/-- CSI parameter bytes (0x30-0x3F). -/
def csi_param (c : Char) : Bool := 48 ≤ c.toNat && c.toNat ≤ 63

/-- CSI intermediate bytes (0x20-0x2F). -/
def csi_inter (c : Char) : Bool := 32 ≤ c.toNat && c.toNat ≤ 47

/-- CSI final byte (0x40-0x7E). -/
def csi_final (c : Char) : Bool := 64 ≤ c.toNat && c.toNat ≤ 126

/-- re.sub of the ANSI regex with the empty replacement, scanning left to
right: at an ESC (0x1B) try the single-character arm, then the CSI arm
(`'['`, parameters, intermediates, one final byte); an ESC with no match is
kept and scanning resumes after it. -/
def strip_ansi_list : List Char → List Char
  | [] => []
  | c :: rest =>
    if c.toNat = 27 then
      match rest with
      | [] => [c]
      | d :: rest2 =>
        if d.toNat = 91 then
          match hm : (rest2.dropWhile csi_param).dropWhile csi_inter with
          | f :: rest3 =>
            if csi_final f then strip_ansi_list rest3
            else c :: strip_ansi_list (d :: rest2)
          | [] => c :: strip_ansi_list (d :: rest2)
        else if esc_single d then strip_ansi_list rest2
        else c :: strip_ansi_list (d :: rest2)
    else c :: strip_ansi_list rest
termination_by l => l.length
decreasing_by
all_goals simp only [List.length_cons]
all_goals try omega
all_goals
  (have h1 : (f :: rest3).length ≤ rest2.length := by
    rw [← hm]
    exact ((List.dropWhile_sublist _).trans (List.dropWhile_sublist _)).length_le)
all_goals simp only [List.length_cons] at h1
all_goals omega

/-- strip_ansi_codes (lines 18-23): None passes through. -/
def strip_ansi_codes : Option String → Option String
  | none => none
  | some s => some (String.mk (strip_ansi_list s.data))

/-- Line 354: `data.get('total_bytes') or data.get('total_bytes_estimate', 0)`
with Python truthiness (both a missing key and a zero count are falsy). -/
def total_from_event (total_bytes total_bytes_estimate : Option Nat) : Nat :=
  match total_bytes with
  | some t => if t = 0 then total_bytes_estimate.getD 0 else t
  | none => total_bytes_estimate.getD 0

/-- Lines 353-366, the `'downloading'` branch of `_on_progress`: the record
handed to the progress callback, its percentage guarded against a zero
total. The float quotient is embedded as the exact rational. -/
def on_progress_downloading (total_bytes total_bytes_estimate : Option Nat)
    (downloaded_bytes : Nat) (speed eta : Option String) : DownloadProgress :=
  let total := total_from_event total_bytes total_bytes_estimate
  { status := "downloading"
    percentage := if total > 0 then (downloaded_bytes : ℚ) / (total : ℚ) * 100 else 0
    downloaded_bytes := downloaded_bytes
    total_bytes := total
    speed := strip_ansi_codes speed
    eta := strip_ansi_codes eta }

/-- Lines 368-375, the `'finished'` branch: a fixed 100% record. -/
def on_progress_finished (downloaded_bytes total_bytes : Nat) : DownloadProgress :=
  { status := "finished", percentage := 100,
    downloaded_bytes := downloaded_bytes, total_bytes := total_bytes }

/-! ## Filename sanitization (`sanitize_filename`, `src/core/file_utils.py` lines 15-36)

The Unicode tables of `unicodedata` and of Python's `re` classes live outside
the repository; the model fixes the character classes at their ASCII
fragment, stated by code point: the word class of `\w` is 0-9 (0x30-0x39),
A-Z (0x41-0x5A), a-z (0x61-0x7A) and `_` (0x5F); the whitespace class of `\s`
is 0x20, 0x09, 0x0A, 0x0D, 0x0B and 0x0C; `str.lower` maps 0x41-0x5A up by
32. On this fragment the NFKD normalization of lines 26-27 is the identity
and no character is combining, so that step is the identity embedding. -/

/-- ASCII fragment of Python's `\w` class. -/
def py_word_char (c : Char) : Bool :=
  (48 ≤ c.toNat && c.toNat ≤ 57) || (65 ≤ c.toNat && c.toNat ≤ 90)
    || (97 ≤ c.toNat && c.toNat ≤ 122) || c.toNat == 95

/-- ASCII fragment of Python's `\s` class. -/
def py_space_char (c : Char) : Bool :=
  c.toNat == 32 || c.toNat == 9 || c.toNat == 10 || c.toNat == 13
    || c.toNat == 11 || c.toNat == 12

/-- Python's `str.isupper` test for one ASCII character. -/
def py_upper_char (c : Char) : Bool := 65 ≤ c.toNat && c.toNat ≤ 90

/-- Python's `str.lower` on one ASCII character. -/
def py_lower_char (c : Char) : Char :=
  if py_upper_char c then Char.ofNat (c.toNat + 32) else c

/-- Line 30: `re.sub(r'[^\w\s]', ' ', filename)`. -/
def replace_nonword (l : List Char) : List Char :=
  l.map (fun c => if py_word_char c || py_space_char c then c else ' ')

/-- Runs of whitespace become one underscore; the flag records whether the
scan stands inside a run already matched. -/
def collapse_spaces_aux (inside_run : Bool) : List Char → List Char
  | [] => []
  | c :: rest =>
    if py_space_char c then
      (if inside_run then [] else ['_']) ++ collapse_spaces_aux true rest
    else c :: collapse_spaces_aux false rest

/-- Line 33: `re.sub(r'\s+', '_', filename)`. -/
def collapse_spaces (l : List Char) : List Char := collapse_spaces_aux false l

/-- sanitize_filename (lines 15-36): NFKD-normalize and drop combining marks
(the identity on the modeled fragment), replace non-word non-space characters
by spaces, collapse whitespace runs to single underscores, lowercase. -/
def sanitize_filename (s : String) : String :=
  String.mk ((collapse_spaces (replace_nonword s.data)).map py_lower_char)

/-! ## Theorems -/

/-- One `add_entry` call leaves at most 100 entries: the truncation of
line 83 bounds the list. -/
theorem add_entry_length_le (entries : List DownloadEntry) (t u p d : String)
    (z : Option Nat) : (add_entry entries t u p d z).length ≤ 100 := by
  simp only [add_entry, List.length_take]
  omega

/-- C4: calling `add_entry` twice with the same file_path leaves exactly one
entry with that path, carrying the second call's title, url and file_size,
and that entry is the front element of the list. -/
theorem add_entry_twice_same_path (entries : List DownloadEntry)
    (t1 u1 d1 t2 u2 d2 p : String) (z1 z2 : Option Nat) :
    ((add_entry (add_entry entries t1 u1 p d1 z1) t2 u2 p d2 z2).countP
        (fun e => e.file_path == p) = 1) ∧
    (add_entry (add_entry entries t1 u1 p d1 z1) t2 u2 p d2 z2).head? =
      some { title := t2, url := u2, file_path := p, download_date := d2,
             file_size := z2 } := by
  have hs2 : add_entry (add_entry entries t1 u1 p d1 z1) t2 u2 p d2 z2
      = ({ title := t2, url := u2, file_path := p, download_date := d2,
           file_size := z2 }
          :: (add_entry entries t1 u1 p d1 z1).filter
              (fun e => e.file_path != p)).take 100 := rfl
  have htake : ∀ (l : List DownloadEntry) (x : DownloadEntry),
      (x :: l).take 100 = x :: l.take 99 := fun _ _ => rfl
  rw [hs2, htake]
  constructor
  · rw [List.countP_cons]
    have hzero :
        (((add_entry entries t1 u1 p d1 z1).filter
            (fun e => e.file_path != p)).take 99).countP
          (fun e => e.file_path == p) = 0 := by
      rw [List.countP_eq_zero]
      intro e he
      have := (List.mem_filter.mp (List.mem_of_mem_take he)).2
      simp only [bne_iff_ne, ne_eq] at this
      simp [this]
    simp [hzero]
  · rfl

/-- C5 counterexample: a loaded history may hold more than 100 entries
(`_load` and `_remove_duplicates` never truncate), and the empty sequence of
`add_entry` calls leaves it that way: 101 entries remain. -/
theorem history_cap_empty_seq_cex :
    (apply_add_entries
      ((List.range 101).map (fun i =>
        { title := "t", url := "u", file_path := Nat.repr i, download_date := "d",
          file_size := none })) []).length = 101 := by
  simp [apply_add_entries]

/-- C5 (amended): after every non-empty sequence of `add_entry` calls the
in-memory list holds at most 100 entries — every individual `add_entry`
re-establishes the cap. -/
theorem history_cap_after_adds (entries : List DownloadEntry)
    (calls : List AddCall) (h : calls ≠ []) :
    (apply_add_entries entries calls).length ≤ 100 := by
  induction calls generalizing entries with
  | nil => cases h rfl
  | cons c cs ih =>
    cases cs with
    | nil =>
      simpa [apply_add_entries] using
        add_entry_length_le entries c.title c.url c.file_path c.download_date c.file_size
    | cons c2 cs2 =>
      have hstep : apply_add_entries entries (c :: c2 :: cs2)
          = apply_add_entries
              (add_entry entries c.title c.url c.file_path c.download_date c.file_size)
              (c2 :: cs2) := rfl
      rw [hstep]
      exact ih _ (by simp)

/-- C5 witness: the amended bound at a concrete non-empty call sequence. -/
theorem history_cap_after_adds_witness :
    (apply_add_entries []
      [{ title := "t", url := "u", file_path := "p", download_date := "d",
         file_size := none }]).length ≤ 100 :=
  history_cap_after_adds []
    [{ title := "t", url := "u", file_path := "p", download_date := "d",
       file_size := none }] (by simp)

/-- C6: the method `HistoryPanel.refresh` invokes on the history store is not
among the methods `DownloadHistory` defines — the call raises AttributeError
instead of validating entries. -/
theorem validate_entries_not_defined :
    download_history_methods.contains history_panel_refresh_target = false := by
  decide

/-- C7: a `'downloading'` event whose total_bytes is missing or zero and
whose total_bytes_estimate is missing or zero yields percentage 0 — the
guard of line 356 takes its division-free branch. -/
theorem progress_zero_total_percentage (total_bytes total_bytes_estimate : Option Nat)
    (downloaded_bytes : Nat) (speed eta : Option String)
    (h1 : total_bytes.getD 0 = 0) (h2 : total_bytes_estimate.getD 0 = 0) :
    (on_progress_downloading total_bytes total_bytes_estimate downloaded_bytes
      speed eta).percentage = 0 := by
  have ht : total_from_event total_bytes total_bytes_estimate = 0 := by
    cases total_bytes with
    | none => simpa [total_from_event] using h2
    | some t =>
      simp only [Option.getD_some] at h1
      simp [total_from_event, h1, h2]
  simp [on_progress_downloading, ht]

/-- C7 witness: the zero-total guard at a concrete event. -/
theorem progress_zero_total_percentage_witness :
    (on_progress_downloading (some 0) none 512 none none).percentage = 0 :=
  progress_zero_total_percentage (some 0) none 512 none none rfl rfl

/-- C8: saving AppSettings and loading the persisted dict back yields the
same value field for field. -/
theorem settings_save_load_roundtrip (s : AppSettings) :
    settings_load (some (settings_save s)) = s := rfl

/-- C10: `get_entries` hands out a fresh copy. Mutating the returned list
object leaves the store's own object unchanged, and a subsequent
`get_entries` still returns the original entries. -/
theorem get_entries_returns_copy (h : EntriesHeap) (store : Nat)
    (f : List DownloadEntry → List DownloadEntry) (hs : store < h.length) :
    let r := (get_entries h store).1
    let h1 := (get_entries h store).2
    let h2 := heap_write h1 r (f (heap_read h1 r))
    heap_read h2 store = heap_read h store ∧
      heap_read (get_entries h2 store).2 (get_entries h2 store).1
        = heap_read h store := by
  intro r h1 h2
  have e1 : heap_read h2 store = heap_read h store := by
    show heap_read ((h ++ [heap_read h store]).set h.length _) store = heap_read h store
    simp only [heap_read, List.getD_eq_getElem?_getD]
    rw [List.getElem?_set_ne (by omega), List.getElem?_append_left hs]
  refine ⟨e1, ?_⟩
  show heap_read (h2 ++ [heap_read h2 store]) h2.length = heap_read h store
  simp only [heap_read, List.getD_eq_getElem?_getD] at e1
  simp only [heap_read, List.getD_eq_getElem?_getD, List.getElem?_concat_length]
  simpa using e1

/-- C10 witness: the copy guarantee at a concrete heap and mutation. -/
theorem get_entries_returns_copy_witness :
    let h : EntriesHeap :=
      [[{ title := "t", url := "u", file_path := "p", download_date := "d",
          file_size := none }]]
    let r := (get_entries h 0).1
    let h1 := (get_entries h 0).2
    let h2 := heap_write h1 r ((fun _ => []) (heap_read h1 r))
    heap_read h2 0 = heap_read h 0 ∧
      heap_read (get_entries h2 0).2 (get_entries h2 0).1 = heap_read h 0 :=
  get_entries_returns_copy _ 0 (fun _ => []) (by decide)

/-- The running maximum of `_find_most_recent_file` is one of the candidate
files. -/
theorem foldl_recent_mem (x : String × Nat) (xs : List (String × Nat)) :
    xs.foldl (fun best y => if y.2 > best.2 then y else best) x ∈ x :: xs := by
  induction xs generalizing x with
  | nil => exact List.mem_singleton.mpr rfl
  | cons y ys ih =>
    have h := ih (if y.2 > x.2 then y else x)
    rw [List.foldl_cons]
    rcases List.mem_cons.mp h with h1 | h1
    · rw [h1]
      by_cases hy : y.2 > x.2
      · rw [if_pos hy]; exact List.mem_cons_of_mem _ (List.mem_cons_self _ _)
      · rw [if_neg hy]; exact List.mem_cons_self _ _
    · exact List.mem_cons_of_mem _ (List.mem_cons_of_mem _ h1)

/-- A path `_find_most_recent_file` returns exists: it is the full path of a
listed file of the output directory. -/
theorem find_most_recent_exists (fs : FileSys) (dir p : String)
    (h : _find_most_recent_file fs dir = some p) : path_exists fs dir p = true := by
  unfold _find_most_recent_file at h
  set L := (fs.dir_files.filter (fun f => f.1.endsWith ".mp4")).map
      (fun f => (join_path dir f.1, f.2)) with hL
  cases hcase : L with
  | nil => rw [hcase] at h; cases h
  | cons x xs =>
    rw [hcase] at h
    simp only [Option.some.injEq] at h
    have hmem : xs.foldl (fun best y => if y.2 > best.2 then y else best) x ∈ L := by
      rw [hcase]; exact foldl_recent_mem x xs
    rw [hL] at hmem
    obtain ⟨f, hf, hfe⟩ := List.mem_map.mp hmem
    have hp : p = join_path dir f.1 := by rw [← h, ← hfe]
    have hfd : f ∈ fs.dir_files := (List.mem_filter.mp hf).1
    simp only [path_exists, Bool.or_eq_true, List.contains_eq_any_beq, List.any_eq_true]
    exact Or.inl ⟨join_path dir f.1, List.mem_map.mpr ⟨f, hfd, rfl⟩, by simp [hp]⟩

/-- C1 counterexample: with an empty output directory and a library record
reporting no download, the success path returns success=True with
file_path=None — success does not imply a non-null existing file. -/
theorem download_success_none_filepath_cex :
    (resolve_download_result ⟨[], []⟩ "out" ⟨"video", "mp4", []⟩).success = true ∧
    (resolve_download_result ⟨[], []⟩ "out" ⟨"video", "mp4", []⟩).file_path = none := by
  decide

/-- C1 (amended): every result of the success path has success=True, and
whenever its file_path is non-null that path exists at return time (it is the
library-reported path or title-derived path after an existence check, or a
listed .mp4 of the output directory); the file_path is None exactly when none
of the three candidates exists. -/
theorem download_success_filepath_exists (fs : FileSys) (dir : String)
    (info : ResolveInfo) :
    (resolve_download_result fs dir info).success = true ∧
    (resolve_download_result fs dir info).file_path.all
      (fun p => path_exists fs dir p) = true := by
  refine ⟨rfl, ?_⟩
  unfold resolve_download_result
  set fp0 : Option String :=
    match info.requested_downloads with
    | rd :: _ => rd.filepath
    | [] => some (join_path dir (info.title ++ "." ++ info.ext)) with hfp0
  have hfall : ∀ q, _find_most_recent_file fs dir = q →
      q.all (fun p => path_exists fs dir p) = true := by
    intro q hq
    cases q with
    | none => rfl
    | some p => simpa using find_most_recent_exists fs dir p hq
  cases fp0 with
  | none => exact hfall _ rfl
  | some p =>
    simp only
    by_cases hex : (p != "" && path_exists fs dir p) = true
    · rw [if_pos hex]
      simp only [Option.all_some]
      simp only [Bool.and_eq_true] at hex
      exact hex.2
    · rw [if_neg hex]
      exact hfall _ rfl

/-- C3: when `cancel()` runs at or before the checkpoint of the download's
terminal event (the last progress-hook invocation, at checkpoint
`1 + hook_count`), `download` returns success=False with the fixed message
"Download cancelado": either check A fires, or the first hook that sees the
flag raises and the handler — seeing the flag — reports cancellation; no
generic exception text reaches the result. -/
theorem cancel_before_terminal_cancelled (cancel_time : Nat) (lib : LibRun)
    (fs : FileSys) (dir : String) (title : String)
    (hmeta : lib.meta_result = .ok title)
    (hev : 1 ≤ lib.hook_count)
    (hc : cancel_time ≤ 1 + lib.hook_count) :
    (run_download cancel_time lib fs dir).success = false ∧
    (run_download cancel_time lib fs dir).error_message = some "Download cancelado" := by
  have hres : run_download cancel_time lib fs dir = cancelled_result := by
    unfold run_download
    rw [hmeta]
    by_cases h1 : cancel_time ≤ 1
    · rw [if_pos (by simp [cancel_seen, h1])]
    · rw [if_neg (by simp [cancel_seen]; omega)]
      have hfind : ∃ j, (List.range lib.hook_count).find?
          (fun i => cancel_seen cancel_time (2 + i)) = some j := by
        rw [← Option.isSome_iff_exists, List.find?_isSome]
        refine ⟨cancel_time - 2, ?_, ?_⟩
        · rw [List.mem_range]; omega
        · simp only [cancel_seen, decide_eq_true_eq]; omega
      obtain ⟨j, hj⟩ := hfind
      rw [hj]
  rw [hres]
  exact ⟨rfl, rfl⟩

/-- C3 witness: cancellation at checkpoint 1 of a one-event run. -/
theorem cancel_before_terminal_cancelled_witness :
    (run_download 1 ⟨.ok "video", 1, .ok ⟨"video", "mp4", []⟩⟩ ⟨[], []⟩ "out").success
      = false ∧
    (run_download 1 ⟨.ok "video", 1, .ok ⟨"video", "mp4", []⟩⟩ ⟨[], []⟩ "out").error_message
      = some "Download cancelado" :=
  cancel_before_terminal_cancelled 1 ⟨.ok "video", 1, .ok ⟨"video", "mp4", []⟩⟩
    ⟨[], []⟩ "out" "video" rfl (by decide) (by decide)

/-- Char.ofNat below the surrogate range keeps its code point. -/
theorem toNat_ofNat_valid (n : Nat) (h : n < 55296) : (Char.ofNat n).toNat = n := by
  have hv : Nat.isValidChar n := Or.inl h
  rw [Char.ofNat, dif_pos hv]
  rfl

/-- Lowercasing keeps a word character a word character. -/
theorem py_lower_char_word (c : Char) (h : py_word_char c = true) :
    py_word_char (py_lower_char c) = true := by
  unfold py_lower_char
  by_cases hu : py_upper_char c = true
  · rw [if_pos hu]
    unfold py_upper_char at hu
    simp only [Bool.and_eq_true, decide_eq_true_eq] at hu
    have ht : (Char.ofNat (c.toNat + 32)).toNat = c.toNat + 32 :=
      toNat_ofNat_valid _ (by omega)
    unfold py_word_char
    simp only [ht, Bool.or_eq_true, Bool.and_eq_true, decide_eq_true_eq, beq_iff_eq]
    omega
  · rw [if_neg hu]
    exact h

/-- Lowercasing never leaves an uppercase letter. -/
theorem py_lower_char_not_upper (c : Char) :
    py_upper_char (py_lower_char c) = false := by
  unfold py_lower_char
  by_cases hu : py_upper_char c = true
  · rw [if_pos hu]
    unfold py_upper_char at hu ⊢
    simp only [Bool.and_eq_true, decide_eq_true_eq] at hu
    have ht : (Char.ofNat (c.toNat + 32)).toNat = c.toNat + 32 :=
      toNat_ofNat_valid _ (by omega)
    refine Bool.eq_false_iff.mpr fun hcon => ?_
    simp only [ht, Bool.and_eq_true, decide_eq_true_eq] at hcon
    omega
  · rw [if_neg hu]
    exact Bool.eq_false_iff.mpr hu

/-- Lowercasing fixes everything that is not an uppercase letter. -/
theorem py_lower_char_id (c : Char) (h : py_upper_char c = false) :
    py_lower_char c = c := by
  unfold py_lower_char
  rw [if_neg (by simp [h])]

/-- Word characters are not whitespace. -/
theorem py_word_not_space (c : Char) (h : py_word_char c = true) :
    py_space_char c = false := by
  refine Bool.eq_false_iff.mpr fun hcon => ?_
  unfold py_word_char at h
  unfold py_space_char at hcon
  simp only [Bool.or_eq_true, Bool.and_eq_true, decide_eq_true_eq, beq_iff_eq] at h hcon
  omega

/-- Characters surviving the first substitution are word or whitespace. -/
theorem replace_nonword_chars (l : List Char) :
    ∀ c ∈ replace_nonword l, py_word_char c = true ∨ py_space_char c = true := by
  intro c hc
  obtain ⟨d, _, he⟩ := List.mem_map.mp hc
  by_cases h : (py_word_char d || py_space_char d) = true
  · rw [if_pos h] at he
    subst he
    simpa using h
  · rw [if_neg h] at he
    subst he
    right
    decide

/-- Characters surviving the whitespace collapse are the inserted underscore
or non-whitespace characters of the input. -/
theorem collapse_spaces_aux_chars (b : Bool) (l : List Char) :
    ∀ c ∈ collapse_spaces_aux b l,
      c = '_' ∨ (c ∈ l ∧ py_space_char c = false) := by
  induction l generalizing b with
  | nil => intro c hc; cases hc
  | cons d rest ih =>
    intro c hc
    unfold collapse_spaces_aux at hc
    by_cases hd : py_space_char d = true
    · rw [if_pos hd] at hc
      rcases List.mem_append.mp hc with h1 | h1
      · left
        cases b with
        | true => cases h1
        | false => exact List.mem_singleton.mp h1
      · rcases ih true c h1 with h | ⟨hm, hs⟩
        · left; exact h
        · right; exact ⟨List.mem_cons_of_mem _ hm, hs⟩
    · rw [if_neg hd] at hc
      rcases List.mem_cons.mp hc with h1 | h1
      · right
        subst h1
        exact ⟨List.mem_cons_self _ _, Bool.eq_false_iff.mpr hd⟩
      · rcases ih false c h1 with h | ⟨hm, hs⟩
        · left; exact h
        · right; exact ⟨List.mem_cons_of_mem _ hm, hs⟩

/-- The whitespace collapse fixes whitespace-free strings. -/
theorem collapse_no_space_id (l : List Char)
    (h : ∀ c ∈ l, py_space_char c = false) :
    ∀ b, collapse_spaces_aux b l = l := by
  induction l with
  | nil => intro _; rfl
  | cons d rest ih =>
    intro b
    unfold collapse_spaces_aux
    rw [if_neg (by simp [h d (List.mem_cons_self _ _)])]
    rw [ih (fun c hc => h c (List.mem_cons_of_mem _ hc)) false]

/-- Mapping a function that fixes every element of a list is the identity. -/
theorem map_id_of_forall {α : Type} (f : α → α) :
    ∀ (l : List α), (∀ c ∈ l, f c = c) → l.map f = l := by
  intro l
  induction l with
  | nil => intro _; rfl
  | cons d rest ih =>
    intro h
    simp only [List.map_cons]
    rw [h d (List.mem_cons_self _ _),
      ih (fun c hc => h c (List.mem_cons_of_mem _ hc))]

/-- Every character of a sanitized filename is a word character, not
whitespace and not uppercase. -/
theorem sanitize_filename_chars (s : String) :
    ∀ c ∈ (sanitize_filename s).data,
      py_word_char c = true ∧ py_space_char c = false ∧ py_upper_char c = false := by
  intro c hc
  have hc' : c ∈ (collapse_spaces (replace_nonword s.data)).map py_lower_char := hc
  obtain ⟨d, hd, he⟩ := List.mem_map.mp hc'
  subst he
  have hword : py_word_char d = true := by
    rcases collapse_spaces_aux_chars false (replace_nonword s.data) d hd with h | ⟨hm, hs⟩
    · subst h; decide
    · rcases replace_nonword_chars _ d hm with h | h
      · exact h
      · simp [h] at hs
  exact ⟨py_lower_char_word d hword,
    py_word_not_space _ (py_lower_char_word d hword),
    py_lower_char_not_upper d⟩

/-- Sanitizing twice equals sanitizing once. -/
theorem sanitize_filename_idem (s : String) :
    sanitize_filename (sanitize_filename s) = sanitize_filename s := by
  have hprops := sanitize_filename_chars s
  show String.mk ((collapse_spaces
      (replace_nonword (sanitize_filename s).data)).map py_lower_char)
    = sanitize_filename s
  have h1 : replace_nonword (sanitize_filename s).data
      = (sanitize_filename s).data := by
    unfold replace_nonword
    apply map_id_of_forall
    intro c hc
    rw [if_pos (by simp [(hprops c hc).1])]
  rw [h1]
  rw [show collapse_spaces (sanitize_filename s).data = (sanitize_filename s).data from
    collapse_no_space_id _ (fun c hc => (hprops c hc).2.1) false]
  rw [map_id_of_forall _ _ (fun c hc => py_lower_char_id c (hprops c hc).2.2)]

/-- C9: sanitize_filename is idempotent and its output contains only word
characters (letters, digits, underscore), no whitespace and no uppercase
letters. -/
theorem sanitize_filename_props (s : String) :
    sanitize_filename (sanitize_filename s) = sanitize_filename s ∧
    ∀ c ∈ (sanitize_filename s).data,
      py_word_char c = true ∧ py_space_char c = false ∧ py_upper_char c = false :=
  ⟨sanitize_filename_idem s, sanitize_filename_chars s⟩

/-- The sort key of line 204 recovers the height of every allow-listed video
entry. -/
theorem key_video_entry (h : Nat) (hmem : h ∈ common_resolutions)
    (fz : Option Nat) : resolution_sort_key (video_entry h fz) = h := by
  fin_cases hmem <;> rfl

/-- Shape of the collection loop's output: video entries over pairwise
distinct allow-listed heights not yet seen. -/
theorem collect_formats_spec (fmts : List RawFormat) (seen : List Nat) :
    ∃ ps : List (Nat × Option Nat),
      collect_formats fmts seen = ps.map (fun p => video_entry p.1 p.2) ∧
      (ps.map Prod.fst).Nodup ∧
      ∀ h ∈ ps.map Prod.fst, h ∈ common_resolutions ∧ h ∉ seen := by
  induction fmts generalizing seen with
  | nil => exact ⟨[], rfl, List.nodup_nil, by simp⟩
  | cons f rest ih =>
    match hh : f.height with
    | none =>
      obtain ⟨ps, h1, h2, h3⟩ := ih seen
      exact ⟨ps, by rw [collect_formats, hh]; exact h1, h2, h3⟩
    | some h =>
      by_cases hskip : h = 0 ∨ h ∈ seen
      · obtain ⟨ps, h1, h2, h3⟩ := ih seen
        refine ⟨ps, ?_, h2, h3⟩
        simp only [collect_formats, hh]
        rw [if_pos hskip]
        exact h1
      · by_cases hallow : h ∈ common_resolutions
        · obtain ⟨ps, h1, h2, h3⟩ := ih (h :: seen)
          refine ⟨(h, f.filesize) :: ps, ?_, ?_, ?_⟩
          · simp only [collect_formats, hh]
            rw [if_neg hskip, if_pos hallow, h1]
            rfl
          · rw [List.map_cons, List.nodup_cons]
            refine ⟨fun hcon => ?_, h2⟩
            have := (h3 h hcon).2
            simp at this
          · intro h' hmem
            rw [List.map_cons] at hmem
            rcases List.mem_cons.mp hmem with h1' | h1'
            · subst h1'
              exact ⟨hallow, fun hcon => hskip (Or.inr hcon)⟩
            · have := h3 h' h1'
              exact ⟨this.1, fun hcon => this.2 (List.mem_cons_of_mem _ hcon)⟩
        · obtain ⟨ps, h1, h2, h3⟩ := ih seen
          refine ⟨ps, ?_, h2, h3⟩
          simp only [collect_formats, hh]
          rw [if_neg hskip, if_neg hallow]
          exact h1

/-- Membership in a descending insertion. -/
theorem mem_insert_desc (a f : VideoFormat) (l : List VideoFormat) :
    a ∈ insert_desc f l ↔ a = f ∨ a ∈ l := by
  induction l with
  | nil => simp [insert_desc]
  | cons g gs ih =>
    unfold insert_desc
    by_cases hk : resolution_sort_key f ≥ resolution_sort_key g
    · rw [if_pos hk]
      simp [List.mem_cons]
    · rw [if_neg hk]
      simp only [List.mem_cons, ih]
      tauto

/-- Descending insertion keeps the list sorted by non-increasing key. -/
theorem insert_desc_sorted (f : VideoFormat) (l : List VideoFormat)
    (h : l.Pairwise (fun a b => resolution_sort_key a ≥ resolution_sort_key b)) :
    (insert_desc f l).Pairwise
      (fun a b => resolution_sort_key a ≥ resolution_sort_key b) := by
  induction l with
  | nil => simp [insert_desc]
  | cons g gs ih =>
    rw [List.pairwise_cons] at h
    unfold insert_desc
    by_cases hk : resolution_sort_key f ≥ resolution_sort_key g
    · rw [if_pos hk]
      rw [List.pairwise_cons]
      refine ⟨?_, List.pairwise_cons.mpr h⟩
      intro a ha
      rcases List.mem_cons.mp ha with h1 | h1
      · subst h1; exact hk
      · exact le_trans (h.1 a h1) hk
    · rw [if_neg hk]
      rw [List.pairwise_cons]
      refine ⟨?_, ih h.2⟩
      intro a ha
      rcases (mem_insert_desc a f gs).mp ha with h1 | h1
      · subst h1; omega
      · exact h.1 a h1

/-- The insertion sort of line 204 sorts by non-increasing key. -/
theorem sort_desc_sorted (l : List VideoFormat) :
    (sort_desc l).Pairwise
      (fun a b => resolution_sort_key a ≥ resolution_sort_key b) := by
  induction l with
  | nil => simp [sort_desc]
  | cons f fs ih => exact insert_desc_sorted f (sort_desc fs) ih

/-- Descending insertion is a permutation of consing. -/
theorem perm_insert_desc (f : VideoFormat) (l : List VideoFormat) :
    List.Perm (insert_desc f l) (f :: l) := by
  induction l with
  | nil => exact List.Perm.refl _
  | cons g gs ih =>
    unfold insert_desc
    by_cases hk : resolution_sort_key f ≥ resolution_sort_key g
    · rw [if_pos hk]
    · rw [if_neg hk]
      exact (List.Perm.cons g ih).trans (List.Perm.swap f g gs)

/-- The insertion sort permutes its input. -/
theorem perm_sort_desc (l : List VideoFormat) : List.Perm (sort_desc l) l := by
  induction l with
  | nil => exact List.Perm.refl _
  | cons f fs ih => exact (perm_insert_desc f (sort_desc fs)).trans (List.Perm.cons f ih)

/-- C2: on a successful metadata query the returned list is the
best-available sentinel, then video entries with pairwise distinct
allow-listed resolutions in strictly decreasing order, then the audio-only
sentinel. -/
theorem get_available_formats_shape (fmts : List RawFormat) :
    ∃ mid, get_available_formats fmts = best_format :: mid ++ [audio_format] ∧
      mid.Pairwise (fun a b => resolution_sort_key a > resolution_sort_key b) ∧
      ∀ f ∈ mid, ∃ h ∈ common_resolutions, f.resolution = toString h ++ "p" := by
  obtain ⟨ps, hps, hnodup, hmem⟩ := collect_formats_spec fmts []
  refine ⟨sort_desc (collect_formats fmts []), rfl, ?_, ?_⟩
  · have hge := sort_desc_sorted (collect_formats fmts [])
    have hne : (collect_formats fmts []).Pairwise
        (fun a b => resolution_sort_key a ≠ resolution_sort_key b) := by
      rw [hps, List.pairwise_map]
      have hp : ps.Pairwise (fun p q => p.1 ≠ q.1) :=
        List.pairwise_map.mp hnodup
      refine hp.imp_of_mem ?_
      intro p q hpmem hqmem hne'
      rw [key_video_entry p.1 (hmem p.1 (List.mem_map.mpr ⟨p, hpmem, rfl⟩)).1,
        key_video_entry q.1 (hmem q.1 (List.mem_map.mpr ⟨q, hqmem, rfl⟩)).1]
      exact hne'
    have hne2 : (sort_desc (collect_formats fmts [])).Pairwise
        (fun a b => resolution_sort_key a ≠ resolution_sort_key b) :=
      ((perm_sort_desc _).pairwise_iff (fun hxy => hxy.symm)).mpr hne
    have := hge.and hne2
    exact this.imp (fun hab => by omega)
  · intro f hf
    have hf2 : f ∈ collect_formats fmts [] :=
      (perm_sort_desc _).mem_iff.mp hf
    rw [hps] at hf2
    obtain ⟨p, hp, he⟩ := List.mem_map.mp hf2
    subst he
    exact ⟨p.1, (hmem p.1 (List.mem_map.mpr ⟨p, hp, rfl⟩)).1, rfl⟩
